import Mathlib

/-!
Verification development for the chaitorch training-extension subsystem
(`chaitorch/training/extension.py`).  Python dicts holding named scalar
values are embedded as association lists with first-match lookup and
in-place-overwrite insertion; the output directory is embedded as a map
from path strings to file contents; machine floats are embedded as `Rat`.
-/

namespace Chaitorch

/-- An observation / JSON record: a Python dict from string keys to scalars. -/
abbrev Obs := List (String × Rat)

/-- A record of the in-memory log (same shape as an observation). -/
abbrev Record := List (String × Rat)

/-- Dict lookup `d[k]` (first binding wins; association lists built by
`oinsert` keep keys unique, matching Python dict semantics). -/
def olookup {α : Type} : List (String × α) → String → Option α
  | [], _ => none
  | (k', v) :: rest, k => if k' = k then some v else olookup rest k

/-- Dict assignment `d[k] = v`: overwrite in place if the key exists,
else append (Python dicts keep first-insertion order). -/
def oinsert {α : Type} : List (String × α) → String → α → List (String × α)
  | [], k, v => [(k, v)]
  | (k', v') :: rest, k, v =>
      if k' = k then (k', v) :: rest else (k', v') :: oinsert rest k v

/-- All values bound to key `k` in a list of pairs, in order. -/
def valsFor (k : String) : List (String × Rat) → List Rat
  | [] => []
  | (k', v) :: rest => if k' = k then v :: valsFor k rest else valsFor k rest

/-- Modelled from the spec: `chaitorch.utils.reporter.Summarizer` is not under
`src/`.  Per the spec it "holds a mapping from key to
(running_sum, running_count)". -/
structure Summarizer where
  vals : List (String × Rat × Nat)
deriving DecidableEq

/-- Fold one reported key/value into the running (sum, count) table. -/
def Summarizer.add1 : List (String × Rat × Nat) → String → Rat → List (String × Rat × Nat)
  | [], k, v => [(k, v, 1)]
  | (k', s, c) :: rest, k, v =>
      if k' = k then (k', s + v, c + 1) :: rest
      else (k', s, c) :: Summarizer.add1 rest k v

/-- Modelled from the spec: "`add(observation)` increments each key present in
the observation by its value and count by 1; keys absent in a given call
simply don't advance that key's count". -/
def Summarizer.add (s : Summarizer) (o : Obs) : Summarizer :=
  ⟨o.foldl (fun a p => Summarizer.add1 a p.1 p.2) s.vals⟩

/-- Modelled from the spec: "`compute_mean()` produces
`\x7bkey: running_sum/running_count\x7d` for every key seen; it does not reset
state". -/
def Summarizer.computeMean (s : Summarizer) : Obs :=
  s.vals.map (fun e => (e.1, e.2.1 / (e.2.2 : Rat)))

/-- Contents of one file in the output directory: either the complete JSON
serialization of a log, or a proper prefix of it (`truncated log n`, the
state left by a crash after `n` bytes of `json.dump`). -/
inductive FileData where
  | complete (log : List Record)
  | truncated (log : List Record) (bytes : Nat)
deriving DecidableEq

/-- The output directory: a map from path strings to file contents. -/
abbrev FS := String → Option FileData

/-- Write (or overwrite) one file. -/
def writeF (fs : FS) (p : String) (d : FileData) : FS :=
  fun q => if q = p then some d else fs q

/-- Remove one file. -/
def removeF (fs : FS) (p : String) : FS :=
  fun q => if q = p then none else fs q

/-- The temporary-file path `os.path.join(tempd, 'log.json')` used by
`LogReport.__call__` (the temporary directory `tempd` is created inside
`trainer.out`). -/
def tempLogPath (out tempd : String) : String :=
  out ++ "/" ++ tempd ++ "/log.json"

/-- The destination path `os.path.join(trainer.out, self.log_name)`. -/
def destLogPath (out logName : String) : String :=
  out ++ "/" ++ logName

/-- Embedding of `LogReport.__call__` persistence (extension.py lines 59-65), run to
completion: `json.dump` the whole log into `tempd/log.json`, then
`shutil.move` it over the destination — one atomic rename. -/
def logPersist (fs : FS) (out tempd logName : String) (log : List Record) : FS :=
  let fs1 := writeF fs (tempLogPath out tempd) (.complete log)
  writeF (removeF fs1 (tempLogPath out tempd)) (destLogPath out logName) (.complete log)

/-- Where a crash can interrupt the persistence attempt before the rename. -/
inductive CrashPoint where
  | beforeWrite
  | duringWrite (bytes : Nat)
  | afterWrite
deriving DecidableEq

/-- The on-disk state left by a crash at `cp`, i.e. strictly before the
`shutil.move` of extension.py line 65 completes. -/
def logPersistCrash (fs : FS) (out tempd _logName : String) (log : List Record) :
    CrashPoint → FS
  | .beforeWrite => fs
  | .duringWrite n => writeF fs (tempLogPath out tempd) (.truncated log n)
  | .afterWrite => writeF fs (tempLogPath out tempd) (.complete log)

/-- The dict comprehension of extension.py line 49:
`\x7bk: observation[k] for k in self.keys if k in observation\x7d`, or the whole
observation when `self.keys is None` (line 47). -/
def filterObs : Option (List String) → Obs → Obs
  | none, obs => obs
  | some ks, obs =>
      ks.foldl (fun acc k =>
        match olookup obs k with
        | some v => oinsert acc k v
        | none => acc) []

/-- The record built on a fire (extension.py lines 52-55): the interval means
augmented with `epoch`, `iteration` and `elapsed_time`. -/
def mkResults (mean : Obs) (epoch iter : Nat) (elapsed : Rat) : Record :=
  oinsert (oinsert (oinsert mean "epoch" (epoch : Rat)) "iteration" (iter : Rat))
    "elapsed_time" elapsed

/-- The slice of trainer state that `LogReport` reads. -/
structure TrainerView where
  observation : Obs
  epoch : Nat
  totalIter : Nat
  elapsedTime : Rat
  out : String
deriving DecidableEq

/-- State of the `LogReport` extension. -/
structure LogReport where
  keys : Option (List String)
  logName : String
  summarizer : Summarizer
  log : List Record
deriving DecidableEq

/-- Embedding of `LogReport.__call__` (extension.py lines 43-70).  `fires` is the value of
`self.trigger(trainer)`; `tempd` is the fresh temporary directory name.  The
trainer view is returned unchanged (the code only reads it). -/
def LogReport.call (s : LogReport) (tr : TrainerView) (fires : Bool) (tempd : String)
    (fs : FS) : LogReport × FS × TrainerView :=
  let obs := filterObs s.keys tr.observation
  let sum1 := s.summarizer.add obs
  if fires then
    let results := mkResults sum1.computeMean tr.epoch tr.totalIter tr.elapsedTime
    let log2 := s.log ++ [results]
    let fs2 := logPersist fs tr.out tempd s.logName log2
    (⟨s.keys, s.logName, ⟨[]⟩, log2⟩, fs2, tr)
  else
    (⟨s.keys, s.logName, sum1, s.log⟩, fs, tr)

/-- Python `str.ljust(w)`: pad with spaces on the right up to width `w` (never
truncates). -/
def ljust (s : String) (w : Nat) : String :=
  s ++ String.mk (List.replicate (w - s.length) ' ')

/-- Column width used by `LogReport.__init__`'s header line (extension.py
line 41) and by `printout`: 10 for `epoch`/`iteration`, 20 otherwise. -/
def colWidth (k : String) : Nat :=
  if k = "epoch" ∨ k = "iteration" then 10 else 20

/-- One cell of `LogReport.printout` (extension.py lines 74-83): format
`self.log[-1][key]` left-justified, and on `KeyError` fall back to
`''.ljust(20)`.  `fmtInt` embeds the f-string `:` format, `fmtFloat` the
`:.5f` format. -/
def renderCell (fmtInt fmtFloat : Rat → String) (r : Record) (k : String) : String :=
  match olookup r k with
  | some v =>
      if k = "epoch" ∨ k = "iteration" then ljust (fmtInt v) 10
      else ljust (fmtFloat v) 20
  | none => ljust "" 20

/-- The whole console line of `LogReport.printout` (extension.py line 84):
the concatenation of one cell per configured key. -/
def printoutLine (fmtInt fmtFloat : Rat → String) (keys : List String) (r : Record) :
    String :=
  String.join (keys.map (renderCell fmtInt fmtFloat r))

/-- A model collaborator: `training` is the flag toggled by
`model.train()` / `model.eval()`, `params` its stored parameter state. -/
structure TModel (α : Type) where
  training : Bool
  params : α
deriving DecidableEq

/-- Embedding of the `ClassifyEvaluater.__call__` batch loop, model-state view (extension.py
lines 140-148): per batch `model.eval()`, run the loss function under
`torch.no_grad()` (it reads the parameters, line 144-146), `model.train()`. -/
def ClassifyEvaluater.passModel {α β : Type} (m : TModel α) (lossFn : α → β → Rat)
    (batches : List β) : TModel α :=
  batches.foldl (fun mm b =>
    let mmEval := { mm with training := false }
    let _ := lossFn mmEval.params b
    { mmEval with training := true }) m

/-- Embedding of `MetricEvaluater.__call__`, model-state view (extension.py lines 165,
171-190): `model.eval()` before the loop, forward passes under
`torch.no_grad()` inside it, `model.train()` after it. -/
def MetricEvaluater.passModel {α β : Type} (m : TModel α) (forward : α → β → Rat)
    (batches : List β) : TModel α :=
  let m1 := { m with training := false }
  let m2 := batches.foldl (fun mm b => let _ := forward mm.params b; mm) m1
  { m2 with training := true }

/-- Modelled from the spec: `chaitorch.utils.reporter.Reporter` is not under
`src/`.  A registered observer's reports get its namespace put before each
key ("prefixed by a registered observer name"); `MetricEvaluater` registers
the model under `eval`. -/
def namespacedObs (ns : String) (vals : Obs) : Obs :=
  vals.map (fun p => (ns ++ "/" ++ p.1, p.2))

/-- The batch loop of `MetricEvaluater.__call__` (extension.py lines
171-189), observation view: each batch opens a fresh scope, reports
`\x7b'loss': v\x7d` for the model (observer namespace `eval`), and folds the
scope's dict into the summarizer.  `losses` holds the per-batch reported
values (the external model/loss computation).  Returns the summarizer and
the Python variable `observation`, which after the loop still refers to the
last batch's dict. -/
def metricEvalLoop (losses : List Rat) : Summarizer × Option Obs :=
  losses.foldl (fun acc v =>
    let observation : Obs := namespacedObs "eval" [("loss", v)]
    (acc.1.add observation, some observation)) (⟨[]⟩, none)

/-- Embedding of `MetricEvaluater.__call__` after the batch loop (extension.py lines
192-199), to the point of the final `report(summarizer.compute_mean())`.
Modelled from the spec for the Reporter: a scope pushes a fresh mapping and
copies it into the destination dict only on exit, so the
`summarizer.add(observation)` of line 197, being inside the recall scope
that reuses the loop variable `observation`, folds the LAST BATCH's dict
into the summarizer a second time.  Returns `none` when the loader is empty
(line 193 would hit an unbound `observation`). -/
def metricEvalReport (losses : List Rat) (_recallScores : List Rat) : Option Obs :=
  let st := metricEvalLoop losses
  match st.2 with
  | none => none
  | some observation => some (st.1.add observation).computeMean

/-- A checkpoint directory tree: existing directories, saved parameter
files keyed by (directory, filename), and paths whose write raises an
`OSError` (permissions, disk full, ...). -/
structure CkptFS (θ : Type) where
  dirs : List String
  files : List ((String × String) × θ)
  failing : List (String × String)

/-- Python `os.makedirs(d)`: error when the directory already exists, else create. -/
def osMakedirs {θ : Type} (fs : CkptFS θ) (d : String) : Except Unit (CkptFS θ) :=
  if d ∈ fs.dirs then .error () else .ok { fs with dirs := d :: fs.dirs }

/-- Embedding of `torch.save(blob, os.path.join(d, fname))`: fails when the directory is
missing or the path's write raises, else records the file. -/
def torchSave {θ : Type} (fs : CkptFS θ) (d fname : String) (blob : θ) :
    Except Unit (CkptFS θ) :=
  if d ∈ fs.dirs ∧ (d, fname) ∉ fs.failing then
    .ok { fs with files := ((d, fname), blob) :: fs.files }
  else
    .error ()

/-- The models exposed by the updater: a single `model` attribute or a
named `models` mapping (extension.py lines 217-221). -/
inductive UpdaterModels (θ : Type) where
  | single (m : θ)
  | named (ms : List (String × θ))

/-- Embedding of `SnapshotModel.__call__` (extension.py lines 210-221): on fire, join the
save directory, `os.makedirs` with `except OSError: pass`, then
`torch.save` each model's state dict (errors there propagate). -/
def SnapshotModel.call {θ : Type} (saveDir : String) (fires : Bool) (out : String)
    (models : UpdaterModels θ) (fs : CkptFS θ) : Except Unit (CkptFS θ) :=
  if fires then
    let d := out ++ "/" ++ saveDir
    let fs1 := match osMakedirs fs d with
      | .ok f => f
      | .error _ => fs
    match models with
    | .single m => torchSave fs1 d "snapshot_model.params" m
    | .named ms => ms.foldlM (fun f p => torchSave f d (p.1 ++ "_snapshot_model.params") p.2) fs1
  else
    .ok fs

/-- Embedding of `SnapshotModel.finalize` (extension.py lines 223-229): unconditionally
`torch.save` a `latest` snapshot of each model into the save directory —
note: no `os.makedirs` here. -/
def SnapshotModel.finalize {θ : Type} (saveDir : String) (out : String)
    (models : UpdaterModels θ) (fs : CkptFS θ) : Except Unit (CkptFS θ) :=
  let d := out ++ "/" ++ saveDir
  match models with
  | .single m => torchSave fs d "latest_model.params" m
  | .named ms => ms.foldlM (fun f p => torchSave f d (p.1 ++ "_latest_model.params") p.2) fs

/-- The Python exception raised by the base extension. -/
inductive PyError where
  | notImplementedError
deriving DecidableEq

/-- Embedding of `Extension.__call__` (extension.py lines 24-25): always raises
`NotImplementedError`. -/
def ExtensionBase.call (_tr : TrainerView) : Except PyError Unit :=
  .error .notImplementedError

/-- Embedding of `Extension.finalize` (extension.py lines 27-28): `pass` — the world (any
state it could have touched) is returned unchanged. -/
def ExtensionBase.finalize {σ : Type} (_tr : TrainerView) (w : σ) : σ :=
  w

/-- One registered extension as the Trainer's scheduler sees it: its
`priority` attribute, its registration index, and its payload. -/
structure ExtEntry (ε : Type) where
  priority : Int
  reg : Nat
  ext : ε
deriving DecidableEq

/-- Place a newly registered entry after every already-scheduled entry of
priority ≥ its own, before the first of strictly smaller priority. -/
def insertByPriority {ε : Type} (e : ExtEntry ε) : List (ExtEntry ε) → List (ExtEntry ε)
  | [] => [e]
  | x :: xs =>
      if e.priority ≤ x.priority then x :: insertByPriority e xs
      else e :: x :: xs

/-- Modelled from the spec: `chaitorch.training.trainer.Trainer` is not under
`src/`.  Per the spec, "Trainer invokes Extensions in descending priority,
and ties are broken by registration order (stable)": a stable
descending-priority ordering of the registration list. -/
def scheduleExtensions {ε : Type} (exts : List (ExtEntry ε)) : List (ExtEntry ε) :=
  exts.foldl (fun acc e => insertByPriority e acc) []

/-- Modelled from the spec: one Trainer step's extension phase — invoke
every registered extension in scheduled order, each acting on the state
left by the previous one. -/
def trainerStep {ε σ : Type} (exts : List (ExtEntry ε)) (apply : σ → ExtEntry ε → σ)
    (s : σ) : σ :=
  (scheduleExtensions exts).foldl apply s

/-! ## Association-list lemmas -/

theorem olookup_oinsert_self {α : Type} (l : List (String × α)) (k : String) (v : α) :
    olookup (oinsert l k v) k = some v := by
  induction l with
  | nil => simp [oinsert, olookup]
  | cons p rest ih =>
      obtain ⟨k', v'⟩ := p
      by_cases h : k' = k
      · simp [oinsert, olookup, h]
      · simp [oinsert, olookup, h, ih]

theorem olookup_oinsert_ne {α : Type} (l : List (String × α)) (k' k : String) (v : α)
    (h : k' ≠ k) : olookup (oinsert l k' v) k = olookup l k := by
  induction l with
  | nil => simp [oinsert, olookup, h]
  | cons p rest ih =>
      obtain ⟨k₀, v₀⟩ := p
      by_cases h₀ : k₀ = k'
      · subst h₀
        simp [oinsert, olookup, h]
      · simp [oinsert, olookup, h₀, ih]

/-! ## Summarizer lemmas: the running mean is the simple per-key average -/

/-- Fold a flat list of key/value pairs into a (sum, count) table. -/
def pairFold (l : List (String × Rat × Nat)) (ps : List (String × Rat)) :
    List (String × Rat × Nat) :=
  ps.foldl (fun a p => Summarizer.add1 a p.1 p.2) l

/-- Step a (sum, count) entry by a list of further values. -/
def addVals : Option (Rat × Nat) → List Rat → Option (Rat × Nat)
  | o, [] => o
  | o, v :: vs =>
      addVals (some (match o with
        | none => (v, 1)
        | some sc => (sc.1 + v, sc.2 + 1))) vs

theorem olookup_add1_eq (l : List (String × Rat × Nat)) (k : String) (v : Rat) :
    olookup (Summarizer.add1 l k v) k =
      some (match olookup l k with
        | none => (v, 1)
        | some sc => (sc.1 + v, sc.2 + 1)) := by
  induction l with
  | nil => simp [Summarizer.add1, olookup]
  | cons p rest ih =>
      obtain ⟨k₀, s₀, c₀⟩ := p
      by_cases h : k₀ = k
      · simp [Summarizer.add1, olookup, h]
      · simp [Summarizer.add1, olookup, h, ih]

theorem olookup_add1_ne (l : List (String × Rat × Nat)) (k' k : String) (v : Rat)
    (h : k' ≠ k) : olookup (Summarizer.add1 l k' v) k = olookup l k := by
  induction l with
  | nil => simp [Summarizer.add1, olookup, h]
  | cons p rest ih =>
      obtain ⟨k₀, s₀, c₀⟩ := p
      by_cases h₀ : k₀ = k'
      · subst h₀
        simp [Summarizer.add1, olookup, h]
      · simp [Summarizer.add1, olookup, h₀, ih]

theorem olookup_pairFold (ps : List (String × Rat)) (l : List (String × Rat × Nat))
    (k : String) :
    olookup (pairFold l ps) k = addVals (olookup l k) (valsFor k ps) := by
  induction ps generalizing l with
  | nil => simp [pairFold, addVals, valsFor]
  | cons p rest ih =>
      obtain ⟨k₀, v₀⟩ := p
      show olookup (pairFold (Summarizer.add1 l k₀ v₀) rest) k = _
      rw [ih]
      by_cases h : k₀ = k
      · subst h
        rw [olookup_add1_eq]
        simp [valsFor, addVals]
      · rw [olookup_add1_ne l k₀ k v₀ h]
        simp [valsFor, h]

theorem addVals_some (vs : List Rat) (a : Rat) (c : Nat) :
    addVals (some (a, c)) vs = some (a + vs.sum, c + vs.length) := by
  induction vs generalizing a c with
  | nil => simp [addVals]
  | cons v rest ih =>
      show addVals (some (a + v, c + 1)) rest = _
      rw [ih]
      simp [List.sum_cons, List.length_cons]
      constructor
      · ring
      · omega

theorem addVals_none (vs : List Rat) :
    addVals none vs = if vs = [] then none else some (vs.sum, vs.length) := by
  cases vs with
  | nil => simp [addVals]
  | cons v rest =>
      show addVals (some (v, 1)) rest = _
      rw [addVals_some]
      simp [List.sum_cons, List.length_cons]
      omega

theorem foldl_add_vals (obss : List Obs) (s : Summarizer) :
    (List.foldl Summarizer.add s obss).vals = pairFold s.vals obss.flatten := by
  induction obss generalizing s with
  | nil => simp [pairFold]
  | cons o rest ih =>
      show (List.foldl Summarizer.add (s.add o) rest).vals = _
      rw [ih]
      simp [pairFold, Summarizer.add, List.foldl_append]

theorem olookup_computeMean (s : Summarizer) (k : String) :
    olookup s.computeMean k = (olookup s.vals k).map (fun sc => sc.1 / (sc.2 : Rat)) := by
  unfold Summarizer.computeMean
  induction s.vals with
  | nil => simp [olookup]
  | cons e rest ih =>
      obtain ⟨k₀, s₀, c₀⟩ := e
      by_cases h : k₀ = k
      · simp [olookup, h]
      · simp [olookup, h, ih]

/-- Per-key values accumulated over an interval's observations. -/
def intervalVals (k : String) (obss : List Obs) : List Rat :=
  valsFor k obss.flatten

/-- Central mean lemma: the summarizer built by folding the interval's
observations yields, per key, the simple arithmetic average of all values
reported for that key, independent of call order (it is a function of sum
and count alone). -/
theorem summarizer_mean (obss : List Obs) (k : String) :
    olookup (List.foldl Summarizer.add ⟨[]⟩ obss).computeMean k =
      (if intervalVals k obss = [] then none
       else some ((intervalVals k obss).sum / ((intervalVals k obss).length : Rat))) := by
  rw [olookup_computeMean, foldl_add_vals, olookup_pairFold]
  show (addVals (olookup [] k) (valsFor k obss.flatten)).map _ = _
  rw [show olookup ([] : List (String × Rat × Nat)) k = none from rfl, addVals_none]
  unfold intervalVals
  by_cases h : valsFor k obss.flatten = []
  · simp [h]
  · simp [h]

/-! ## Lemmas about the record built on a fire -/

theorem olookup_mkResults_epoch (m : Obs) (e i : Nat) (t : Rat) :
    olookup (mkResults m e i t) "epoch" = some (e : Rat) := by
  unfold mkResults
  rw [olookup_oinsert_ne _ _ _ _ (by decide), olookup_oinsert_ne _ _ _ _ (by decide),
    olookup_oinsert_self]

theorem olookup_mkResults_iteration (m : Obs) (e i : Nat) (t : Rat) :
    olookup (mkResults m e i t) "iteration" = some (i : Rat) := by
  unfold mkResults
  rw [olookup_oinsert_ne _ _ _ _ (by decide), olookup_oinsert_self]

theorem olookup_mkResults_elapsed (m : Obs) (e i : Nat) (t : Rat) :
    olookup (mkResults m e i t) "elapsed_time" = some t := by
  unfold mkResults
  rw [olookup_oinsert_self]

theorem olookup_mkResults_other (m : Obs) (e i : Nat) (t : Rat) (k : String)
    (h1 : k ≠ "epoch") (h2 : k ≠ "iteration") (h3 : k ≠ "elapsed_time") :
    olookup (mkResults m e i t) k = olookup m k := by
  unfold mkResults
  rw [olookup_oinsert_ne _ _ _ _ (Ne.symm h3), olookup_oinsert_ne _ _ _ _ (Ne.symm h2),
    olookup_oinsert_ne _ _ _ _ (Ne.symm h1)]

/-! ## Claims about LogReport -/

/-- Claim C1: a crash or error at any point of a `LogReport` persistence
attempt before the rename completes leaves the previously persisted
destination log file byte-identical to its pre-attempt contents, and the
completed attempt replaces the destination atomically with the fully
written log. -/
theorem claim_C1_log_persist_atomic (fs : FS) (out tempd logName : String)
    (log : List Record) (h : tempLogPath out tempd ≠ destLogPath out logName) :
    (∀ cp : CrashPoint,
      logPersistCrash fs out tempd logName log cp (destLogPath out logName) =
        fs (destLogPath out logName))
    ∧ logPersist fs out tempd logName log (destLogPath out logName) =
        some (.complete log) := by
  have h' : destLogPath out logName ≠ tempLogPath out tempd := Ne.symm h
  constructor
  · intro cp
    cases cp with
    | beforeWrite => rfl
    | duringWrite n => simp [logPersistCrash, writeF, h']
    | afterWrite => simp [logPersistCrash, writeF, h']
  · simp [logPersist, writeF]

/-- Witness for C1 at a concrete directory state. -/
theorem claim_C1_log_persist_atomic_witness :
    logPersistCrash (fun _ => none) "result" "tmp1" "log" [] .afterWrite
        (destLogPath "result" "log") =
      (fun _ => none : FS) (destLogPath "result" "log")
    ∧ logPersist (fun _ => none) "result" "tmp1" "log" []
        (destLogPath "result" "log") = some (.complete []) :=
  ⟨(claim_C1_log_persist_atomic (fun _ => none) "result" "tmp1" "log" []
      (by decide)).1 .afterWrite,
   (claim_C1_log_persist_atomic (fun _ => none) "result" "tmp1" "log" []
      (by decide)).2⟩

/-- Claim C2: when the trigger fires, `LogReport.__call__` appends to its log
exactly one record holding the per-key means of the observations folded into
its summarizer since the previous fire (the current step's filtered
observation included), plus `epoch`, `iteration` and `elapsed_time`; the
whole log is rewritten to the single destination file; the summarizer is
reset. -/
theorem claim_C2_logreport_fire (s : LogReport) (tr : TrainerView) (tempd : String)
    (fs : FS) (prevObss : List Obs)
    (hsum : s.summarizer = List.foldl Summarizer.add ⟨[]⟩ prevObss) :
    ∃ r : Record,
      (s.call tr true tempd fs).1.log = s.log ++ [r]
      ∧ (s.call tr true tempd fs).2.1 (destLogPath tr.out s.logName) =
          some (.complete (s.log ++ [r]))
      ∧ (s.call tr true tempd fs).1.summarizer = ⟨[]⟩
      ∧ olookup r "epoch" = some (tr.epoch : Rat)
      ∧ olookup r "iteration" = some (tr.totalIter : Rat)
      ∧ olookup r "elapsed_time" = some tr.elapsedTime
      ∧ (∀ k, k ≠ "epoch" → k ≠ "iteration" → k ≠ "elapsed_time" →
          olookup r k =
            (if intervalVals k (prevObss ++ [filterObs s.keys tr.observation]) = []
             then none
             else some
               ((intervalVals k (prevObss ++ [filterObs s.keys tr.observation])).sum /
                ((intervalVals k (prevObss ++ [filterObs s.keys tr.observation])).length :
                  Rat)))) := by
  have hadd : s.summarizer.add (filterObs s.keys tr.observation) =
      List.foldl Summarizer.add ⟨[]⟩ (prevObss ++ [filterObs s.keys tr.observation]) := by
    rw [hsum, List.foldl_append]
    rfl
  refine ⟨mkResults (s.summarizer.add (filterObs s.keys tr.observation)).computeMean
    tr.epoch tr.totalIter tr.elapsedTime, rfl, ?_, rfl, ?_, ?_, ?_, ?_⟩
  · show logPersist fs tr.out tempd s.logName _ (destLogPath tr.out s.logName) = _
    simp [logPersist, writeF]
  · exact olookup_mkResults_epoch _ _ _ _
  · exact olookup_mkResults_iteration _ _ _ _
  · exact olookup_mkResults_elapsed _ _ _ _
  · intro k h1 h2 h3
    rw [olookup_mkResults_other _ _ _ _ _ h1 h2 h3, hadd, summarizer_mean]

/-- Witness for C2 at a concrete state: fresh summarizer, one observed key. -/
theorem claim_C2_logreport_fire_witness :
    ((⟨some ["training/loss"], "log", ⟨[]⟩, []⟩ : LogReport).call
      ⟨[("training/loss", 2)], 1, 5, 10, "result"⟩ true "tmp1"
      (fun _ => none)).1.summarizer = ⟨[]⟩ := by
  obtain ⟨r, _, _, h3, _⟩ := claim_C2_logreport_fire
    ⟨some ["training/loss"], "log", ⟨[]⟩, []⟩
    ⟨[("training/loss", 2)], 1, 5, 10, "result"⟩ "tmp1" (fun _ => none) [] rfl
  exact h3

/-- Claim C9: on a step where the trigger does not fire, `LogReport.__call__`
changes only the summarizer accumulation — the in-memory log, the on-disk
state and the trainer's observation mapping are all returned unchanged. -/
theorem claim_C9_logreport_no_fire_frame (s : LogReport) (tr : TrainerView)
    (tempd : String) (fs : FS) :
    s.call tr false tempd fs =
      (⟨s.keys, s.logName, s.summarizer.add (filterObs s.keys tr.observation), s.log⟩,
        fs, tr) :=
  rfl

/-- Claim C10: the base `Extension.__call__` raises `NotImplementedError` for
every trainer argument, and the base `finalize` is a no-op on any world
state. -/
theorem claim_C10_base_extension (tr : TrainerView) :
    ExtensionBase.call tr = .error .notImplementedError
    ∧ ∀ (σ : Type) (w : σ), ExtensionBase.finalize tr w = w :=
  ⟨rfl, fun _ _ => rfl⟩

/-! ## Claim about MetricEvaluater's reported mean -/

/-- Claim C3 is refuted by the code: `MetricEvaluater.__call__` reuses the
batch-loop variable `observation` as the destination of the recall scope and
calls `summarizer.add(observation)` a second time there (extension.py lines
193-197), so the last batch's loss is folded into the summarizer twice.
With reported per-batch losses `[1, 3]` the pass reports
`eval/loss = 7/3`, not the simple average `2`; with the same batches in the
other order it reports `5/3`, so the result is not order-independent
either. -/
theorem claim_C3_metric_eval_double_counts_last_batch :
    (metricEvalReport [1, 3] []).map (fun o => olookup o "eval/loss") =
      some (some (7/3))
    ∧ (metricEvalReport [3, 1] []).map (fun o => olookup o "eval/loss") =
      some (some (5/3))
    ∧ ((1 : Rat) + 3) / 2 = 2
    ∧ (7 : Rat)/3 ≠ 2
    ∧ (5 : Rat)/3 ≠ 2 := by
  refine ⟨?_, ?_, by norm_num, by norm_num, by norm_num⟩
  · simp [metricEvalReport, metricEvalLoop, Summarizer.add, Summarizer.add1,
      Summarizer.computeMean, namespacedObs, olookup]
    norm_num
  · simp [metricEvalReport, metricEvalLoop, Summarizer.add, Summarizer.add1,
      Summarizer.computeMean, namespacedObs, olookup]
    norm_num

/-! ## Claims about evaluator model handling -/

theorem classify_passModel_params {α β : Type} (lossFn : α → β → Rat)
    (batches : List β) (m : TModel α) :
    (ClassifyEvaluater.passModel m lossFn batches).params = m.params := by
  induction batches generalizing m with
  | nil => rfl
  | cons b rest ih =>
      show (ClassifyEvaluater.passModel ⟨true, m.params⟩ lossFn rest).params = m.params
      rw [ih]

theorem classify_passModel_training {α β : Type} (lossFn : α → β → Rat)
    (batches : List β) (m : TModel α) (h : m.training = true) :
    (ClassifyEvaluater.passModel m lossFn batches).training = true := by
  induction batches generalizing m with
  | nil => exact h
  | cons b rest ih =>
      show (ClassifyEvaluater.passModel ⟨true, m.params⟩ lossFn rest).training = true
      exact ih ⟨true, m.params⟩ rfl

theorem metric_passModel_eq {α β : Type} (forward : α → β → Rat)
    (batches : List β) (m : TModel α) :
    MetricEvaluater.passModel m forward batches = ⟨true, m.params⟩ := by
  have hfold : ∀ (l : List β) (x : TModel α),
      List.foldl (fun mm b => let _ := forward mm.params b; mm) x l = x := by
    intro l
    induction l with
    | nil => intro x; rfl
    | cons b rest ih => intro x; exact ih x
  simp only [MetricEvaluater.passModel]
  rw [hfold]

/-- Claim C5: after a fired evaluator pass over the whole data loader,
the model is back in training mode and its stored parameters are exactly
what they were before the pass (the loss/metric computations run under
`torch.no_grad()` and only read them). -/
theorem claim_C5_evaluators_restore_training {α β : Type} (m : TModel α)
    (lossFn forward : α → β → Rat) (batches : List β) (h : m.training = true) :
    (ClassifyEvaluater.passModel m lossFn batches).params = m.params
    ∧ (ClassifyEvaluater.passModel m lossFn batches).training = true
    ∧ (MetricEvaluater.passModel m forward batches).params = m.params
    ∧ (MetricEvaluater.passModel m forward batches).training = true := by
  refine ⟨classify_passModel_params _ _ _, classify_passModel_training _ _ _ h, ?_, ?_⟩
  · rw [metric_passModel_eq]
  · rw [metric_passModel_eq]

/-- Witness for C5: a two-batch pass on a concrete model in training mode. -/
theorem claim_C5_evaluators_restore_training_witness :
    (ClassifyEvaluater.passModel (⟨true, 7⟩ : TModel Nat) (fun _ _ => 0) [1, 2]).params = 7
    ∧ (ClassifyEvaluater.passModel (⟨true, 7⟩ : TModel Nat) (fun _ _ => 0) [1, 2]).training = true
    ∧ (MetricEvaluater.passModel (⟨true, 7⟩ : TModel Nat) (fun _ _ => 0) [1, 2]).params = 7
    ∧ (MetricEvaluater.passModel (⟨true, 7⟩ : TModel Nat) (fun _ _ => 0) [1, 2]).training = true :=
  claim_C5_evaluators_restore_training ⟨true, 7⟩ (fun _ _ => 0) (fun _ _ => 0) [1, 2] rfl

/-! ## Claims about SnapshotModel -/

/-- Lookup a saved file by (directory, filename). -/
def plookup {θ : Type} : List ((String × String) × θ) → String × String → Option θ
  | [], _ => none
  | (k', v) :: rest, k => if k' = k then some v else plookup rest k

/-- Claim C6: during a fired `SnapshotModel` save, a directory-already-exists
error from `os.makedirs` is swallowed and the save proceeds and records the
checkpoint; any filesystem error raised while writing the checkpoint itself
propagates out of the extension. -/
theorem claim_C6_snapshot_error_handling {θ : Type} (saveDir out : String) (m : θ)
    (fs : CkptFS θ) (hdir : (out ++ "/" ++ saveDir) ∈ fs.dirs)
    (hok : ((out ++ "/" ++ saveDir), "snapshot_model.params") ∉ fs.failing) :
    (∃ fs', SnapshotModel.call saveDir true out (.single m) fs = .ok fs'
      ∧ plookup fs'.files (out ++ "/" ++ saveDir, "snapshot_model.params") = some m)
    ∧ (∀ fs₂ : CkptFS θ,
        ((out ++ "/" ++ saveDir), "snapshot_model.params") ∈ fs₂.failing →
          SnapshotModel.call saveDir true out (.single m) fs₂ = .error ()) := by
  constructor
  · refine ⟨{ fs with
      files := ((out ++ "/" ++ saveDir, "snapshot_model.params"), m) :: fs.files }, ?_, ?_⟩
    · simp [SnapshotModel.call, osMakedirs, torchSave, hdir, hok]
    · simp [plookup]
  · intro fs₂ hfail
    by_cases h2 : (out ++ "/" ++ saveDir) ∈ fs₂.dirs
    · simp [SnapshotModel.call, osMakedirs, torchSave, h2, hfail]
    · simp [SnapshotModel.call, osMakedirs, torchSave, h2, hfail]

/-- Witness for C6: the checkpoint directory already exists (swallowed
makedirs error) and the save lands; a failing write path propagates. -/
theorem claim_C6_snapshot_error_handling_witness :
    (∃ fs', SnapshotModel.call "snap" true "out" (.single (5 : Nat))
        ⟨["out", "out/snap"], [], []⟩ = .ok fs'
      ∧ plookup fs'.files ("out" ++ "/" ++ "snap", "snapshot_model.params") = some 5)
    ∧ SnapshotModel.call "snap" true "out" (.single (5 : Nat))
        ⟨["out"], [], [("out/snap", "snapshot_model.params")]⟩ = .error () :=
  ⟨(claim_C6_snapshot_error_handling "snap" "out" 5 ⟨["out", "out/snap"], [], []⟩
      (by decide) (by decide)).1,
   (claim_C6_snapshot_error_handling "snap" "out" 5 ⟨["out", "out/snap"], [], []⟩
      (by decide) (by decide)).2
     ⟨["out"], [], [("out/snap", "snapshot_model.params")]⟩ (by decide)⟩

/-- Claim C4 is refuted by the code on the very scenario it highlights:
`SnapshotModel.finalize` does attempt an unconditional `latest` snapshot
under a distinct filename, but it never creates the checkpoint directory
(only `__call__` runs `os.makedirs`), so on a run whose trigger never fired
with a fresh `save_dir` the final `torch.save` raises instead of producing
a checkpoint. -/
theorem claim_C4_finalize_fails_without_fire :
    SnapshotModel.call "snap" false "out" (.single (0 : Nat)) ⟨["out"], [], []⟩ =
      .ok ⟨["out"], [], []⟩
    ∧ SnapshotModel.finalize "snap" "out" (.single (0 : Nat)) ⟨["out"], [], []⟩ =
      .error ()
    ∧ "latest_model.params" ≠ "snapshot_model.params" := by
  refine ⟨rfl, ?_, by decide⟩
  have hmem : ("out" ++ "/" ++ "snap") ∉ (⟨["out"], [], []⟩ : CkptFS Nat).dirs := by decide
  simp [SnapshotModel.finalize, torchSave, hmem]

/-! ## Claim about the Trainer's extension scheduling -/

/-- The invocation-order contract: descending priority, registration order
as the tie-break. -/
def schedOrder {ε : Type} (a b : ExtEntry ε) : Prop :=
  b.priority ≤ a.priority ∧ (a.priority = b.priority → a.reg < b.reg)

theorem mem_insertByPriority {ε : Type} (e y : ExtEntry ε) (l : List (ExtEntry ε)) :
    y ∈ insertByPriority e l ↔ y = e ∨ y ∈ l := by
  induction l with
  | nil => simp [insertByPriority]
  | cons x xs ih =>
      by_cases h : e.priority ≤ x.priority
      · simp [insertByPriority, h, ih]
        tauto
      · simp [insertByPriority, h]

theorem perm_insertByPriority {ε : Type} (e : ExtEntry ε) (l : List (ExtEntry ε)) :
    (insertByPriority e l).Perm (e :: l) := by
  induction l with
  | nil => simp [insertByPriority]
  | cons x xs ih =>
      by_cases h : e.priority ≤ x.priority
      · simp only [insertByPriority, if_pos h]
        exact List.Perm.trans (List.Perm.cons x ih) (List.Perm.swap e x xs)
      · simp only [insertByPriority, if_neg h]
        exact List.Perm.refl _

theorem pairwise_insertByPriority {ε : Type} (e : ExtEntry ε) (l : List (ExtEntry ε))
    (hreg : ∀ x ∈ l, x.reg < e.reg) (hp : l.Pairwise schedOrder) :
    (insertByPriority e l).Pairwise schedOrder := by
  induction l with
  | nil => simp [insertByPriority, List.Pairwise.nil]
  | cons x xs ih =>
      rw [List.pairwise_cons] at hp
      by_cases h : e.priority ≤ x.priority
      · simp only [insertByPriority, if_pos h]
        rw [List.pairwise_cons]
        constructor
        · intro z hz
          rw [mem_insertByPriority] at hz
          cases hz with
          | inl hz =>
              subst hz
              exact ⟨h, fun _ => hreg x (by simp)⟩
          | inr hz => exact hp.1 z hz
        · exact ih (fun z hz => hreg z (by simp [hz])) hp.2
      · simp only [insertByPriority, if_neg h]
        rw [List.pairwise_cons]
        constructor
        · intro z hz
          have hlt : x.priority < e.priority := lt_of_not_le h
          cases hz with
          | head =>
              exact ⟨le_of_lt hlt, fun heq => absurd heq.symm (ne_of_lt hlt)⟩
          | tail _ hz =>
              have hxz := hp.1 z hz
              have : z.priority ≤ x.priority := hxz.1
              exact ⟨le_of_lt (lt_of_le_of_lt this hlt),
                fun heq => absurd heq.symm (ne_of_lt (lt_of_le_of_lt this hlt))⟩
        · rw [List.pairwise_cons]
          exact ⟨hp.1, hp.2⟩

theorem pairwise_foldl_insert {ε : Type} (l : List (ExtEntry ε))
    (acc : List (ExtEntry ε)) (hacc : acc.Pairwise schedOrder)
    (hcross : ∀ a ∈ acc, ∀ b ∈ l, a.reg < b.reg)
    (hl : l.Pairwise (fun a b => a.reg < b.reg)) :
    (List.foldl (fun acc e => insertByPriority e acc) acc l).Pairwise schedOrder := by
  induction l generalizing acc with
  | nil => exact hacc
  | cons e rest ih =>
      rw [List.pairwise_cons] at hl
      refine ih (insertByPriority e acc) ?_ ?_ hl.2
      · exact pairwise_insertByPriority e acc
          (fun x hx => hcross x hx e (by simp)) hacc
      · intro a ha b hb
        rw [mem_insertByPriority] at ha
        cases ha with
        | inl ha =>
            subst ha
            exact hl.1 b hb
        | inr ha => exact hcross a ha b (by simp [hb])

theorem perm_foldl_insert {ε : Type} (l acc : List (ExtEntry ε)) :
    (List.foldl (fun acc e => insertByPriority e acc) acc l).Perm (l ++ acc) := by
  induction l generalizing acc with
  | nil => simp
  | cons e rest ih =>
      show (List.foldl _ (insertByPriority e acc) rest).Perm (e :: (rest ++ acc))
      exact List.Perm.trans (ih (insertByPriority e acc))
        (List.Perm.trans
          (List.Perm.append_left rest (perm_insertByPriority e acc))
          List.perm_middle)

/-- Claim C7: the Trainer's per-step extension phase invokes every registered
extension exactly once, in descending `priority` with registration order as
a stable tie-break, each acting on the state left by the previous one. -/
theorem claim_C7_extension_invocation_order {ε σ : Type} (exts : List (ExtEntry ε))
    (apply : σ → ExtEntry ε → σ) (st : σ)
    (hreg : exts.Pairwise (fun a b => a.reg < b.reg)) :
    (scheduleExtensions exts).Perm exts
    ∧ (scheduleExtensions exts).Pairwise schedOrder
    ∧ trainerStep exts apply st = (scheduleExtensions exts).foldl apply st := by
  refine ⟨?_, ?_, rfl⟩
  · have h := perm_foldl_insert exts []
    simpa [scheduleExtensions] using h
  · exact pairwise_foldl_insert exts [] List.Pairwise.nil (by simp) hreg

/-- Witness for C7: three registrations with priorities 0, -1, 0. -/
theorem claim_C7_extension_invocation_order_witness :
    (scheduleExtensions [⟨0, 0, ()⟩, ⟨-1, 1, ()⟩, ⟨0, 2, ()⟩]).Perm
      [⟨0, 0, ()⟩, ⟨-1, 1, ()⟩, ⟨0, 2, ()⟩]
    ∧ trainerStep [⟨0, 0, ()⟩, ⟨-1, 1, ()⟩, ⟨0, 2, ()⟩]
        (fun (s : List Nat) (e : ExtEntry Unit) => s ++ [e.reg]) [] =
      (scheduleExtensions [⟨0, 0, ()⟩, ⟨-1, 1, ()⟩, ⟨0, 2, ()⟩]).foldl
        (fun (s : List Nat) (e : ExtEntry Unit) => s ++ [e.reg]) [] :=
  ⟨(claim_C7_extension_invocation_order [⟨0, 0, ()⟩, ⟨-1, 1, ()⟩, ⟨0, 2, ()⟩]
      (fun (s : List Nat) (e : ExtEntry Unit) => s ++ [e.reg]) [] (by decide)).1,
   (claim_C7_extension_invocation_order [⟨0, 0, ()⟩, ⟨-1, 1, ()⟩, ⟨0, 2, ()⟩]
      (fun (s : List Nat) (e : ExtEntry Unit) => s ++ [e.reg]) [] (by decide)).2.2⟩

/-! ## Claim about LogReport.printout -/

theorem string_foldl_append (l : List String) :
    ∀ a : String, List.foldl (· ++ ·) a l = a ++ List.foldl (· ++ ·) "" l := by
  induction l with
  | nil =>
      intro a
      show a = a ++ ""
      rw [String.append_empty]
  | cons b rest ih =>
      intro a
      show List.foldl (· ++ ·) (a ++ b) rest = a ++ List.foldl (· ++ ·) ("" ++ b) rest
      rw [String.empty_append, ih (a ++ b), ih b, String.append_assoc]

theorem string_join_cons (a : String) (l : List String) :
    String.join (a :: l) = a ++ String.join l := by
  show List.foldl (· ++ ·) ("" ++ a) l = a ++ List.foldl (· ++ ·) "" l
  rw [String.empty_append, string_foldl_append]

theorem string_join_append (l1 l2 : List String) :
    String.join (l1 ++ l2) = String.join l1 ++ String.join l2 := by
  induction l1 with
  | nil => simp [String.join]
  | cons a rest ih =>
      rw [List.cons_append, string_join_cons, ih, string_join_cons,
        String.append_assoc]

/-- Claim C8: when the just-appended record lacks one of the configured keys,
`printout` renders that key as blank padding of the column's fixed width
(absent keys are never `epoch`/`iteration`, which the fire path always sets,
so their column width is 20), and the remaining keys of the line are still
rendered on both sides — a missing key affects only its own cell. -/
theorem claim_C8_printout_missing_key (fmtInt fmtFloat : Rat → String) (mean : Obs)
    (e i : Nat) (t : Rat) (ks1 ks2 : List String) (k : String)
    (hmiss : olookup (mkResults mean e i t) k = none) :
    renderCell fmtInt fmtFloat (mkResults mean e i t) k = ljust "" (colWidth k)
    ∧ printoutLine fmtInt fmtFloat (ks1 ++ k :: ks2) (mkResults mean e i t) =
        printoutLine fmtInt fmtFloat ks1 (mkResults mean e i t)
        ++ renderCell fmtInt fmtFloat (mkResults mean e i t) k
        ++ printoutLine fmtInt fmtFloat ks2 (mkResults mean e i t) := by
  have hke : k ≠ "epoch" := by
    intro h
    subst h
    rw [olookup_mkResults_epoch] at hmiss
    exact Option.noConfusion hmiss
  have hki : k ≠ "iteration" := by
    intro h
    subst h
    rw [olookup_mkResults_iteration] at hmiss
    exact Option.noConfusion hmiss
  constructor
  · simp [renderCell, hmiss, colWidth, hke, hki]
  · simp only [printoutLine, List.map_append, List.map_cons, string_join_append,
      string_join_cons, String.append_assoc]

/-- Witness for C8 at a concrete record missing the key
`validation/loss`. -/
theorem claim_C8_printout_missing_key_witness :
    renderCell (fun _ => "") (fun _ => "") (mkResults [("training/loss", 1)] 1 2 3)
      "validation/loss" = ljust "" (colWidth "validation/loss") :=
  (claim_C8_printout_missing_key (fun _ => "") (fun _ => "") [("training/loss", 1)]
    1 2 3 ["epoch"] ["training/loss"] "validation/loss" (by decide)).1

end Chaitorch
